import Mathlib

/-!
Verification development for the `ConfigManager` module of the
`self_profile` repository (source: `assets/js/config.js`).

The module is a browser-local configuration store: a flat JSON object of
site settings persisted in `localStorage` under the key
`"fnp-site-config"`, with a schema-version token under
`"fnp-site-config-version"`, versioned migration plus legacy-value rewrite
rules applied on `load()`, and an asynchronous image-existence prober with
a 24-hour cache (`"fnp-latest-pfp-cache"` / `"fnp-latest-pfp-cache-time"`).

Modelling choices (shallow embedding):
* JS objects are association lists `List (String × JVal)` with
  first-occurrence lookup; `setKey` replaces the first binding in place
  (appending when absent), so folding `setKey` over a list is exactly the
  semantics of the JS object spread `\x7b...a, ...b\x7d`.
* `localStorage` is an association list from string keys to `Item`s.  An
  `Item.json` is a record that holds the serialisation of a JS object
  (the only thing the API ever writes under the config key);
  `Item.raw` is a plain string record (version token, image-cache path and
  timestamp); `Item.corrupt` stands for stored text that `JSON.parse`
  rejects.  `JSON.parse` of a non-`json` item is modelled as a parse
  failure, which the code catches.
* The `try`/`catch` blocks around storage operations are modelled by a
  `Faults` record saying which underlying storage operation throws; a
  thrown operation leaves the store unchanged and control jumps to the
  enclosing `catch`, exactly as in the source.
* The asynchronous image probe `checkImageExists` (load/error/2-second
  timeout all resolve the promise with a boolean, never rejecting) is
  modelled as a boolean oracle `ex : String → Bool` on paths, and
  `Date.now()` as an explicit `now : Nat` parameter.  `parseInt` on the
  stored digit-string timestamp is `String.toNat?`.
-/

namespace SelfProfile

/-- Scalar JSON value, as stored in a configuration object.  The
configuration schema of the source is flat (strings and booleans); numbers
cover the remaining scalar literals a persisted blob may carry. -/
inductive JVal : Type where
  | str (s : String)
  | bool (b : Bool)
  | num (n : Int)
  deriving DecidableEq, Repr

/-- A JS object: ordered key/value bindings.  Objects produced by
`JSON.parse` and by the code itself have pairwise-distinct keys
(`NodupKeys`). -/
abbrev Obj : Type := List (String × JVal)

/-- Property lookup `o[k]`: the first binding of key `k`. -/
def lookupKey {α : Type} : List (String × α) → String → Option α
  | [], _ => none
  | p :: rest, k => if p.1 = k then some p.2 else lookupKey rest k

/-- Property assignment `o[k] = v`: replaces the first binding of `k` in
place, appending a new binding when `k` is absent. -/
def setKey {α : Type} : List (String × α) → String → α → List (String × α)
  | [], k, v => [(k, v)]
  | p :: rest, k, v => if p.1 = k then (k, v) :: rest else p :: setKey rest k v

/-- `localStorage.removeItem k`: drops the binding of `k`. -/
def removeKey {α : Type} : List (String × α) → String → List (String × α)
  | [], _ => []
  | p :: rest, k =>
    if p.1 = k then removeKey rest k else p :: removeKey rest k

/-- `Object.keys o` (the key list, in binding order). -/
def keysOf {α : Type} (o : List (String × α)) : List String :=
  o.map Prod.fst

/-- `o.hasOwnProperty k`. -/
def hasKey {α : Type} (o : List (String × α)) (k : String) : Bool :=
  (lookupKey o k).isSome

/-- The keys of `o` are pairwise distinct (true of every object the code
builds and of every `JSON.parse` result). -/
def NodupKeys {α : Type} (o : List (String × α)) : Prop :=
  (keysOf o).Nodup

/-- Object spread `\x7b...a, ...b\x7d`: assign every binding of `b` into a
copy of `a`, in order. -/
def spreadObj {α : Type} (a b : List (String × α)) : List (String × α) :=
  b.foldl (fun m p => setKey m p.1 p.2) a

/-- A record persisted in `localStorage`.  The API writes `Item.json`
under the config key and `Item.raw` under the version and image-cache
keys; `Item.corrupt` models stored text that `JSON.parse` rejects. -/
inductive Item : Type where
  | raw (s : String)
  | json (o : Obj)
  | corrupt
  deriving DecidableEq, Repr

/-- The `localStorage` contents visible to the module. -/
abbrev Store : Type := List (String × Item)

/-- Which underlying storage operations throw during a call.  Each flag
corresponds to one `try`-protected operation of the source: reading
(`localStorage.getItem`), the config write inside `save()`
(`JSON.stringify` + `setItem`), the version-token write, the
`removeItem` in `reset()`, and the image-cache reads and writes of
`findLatestPfpImage()`. -/
structure Faults : Type where
  readFault : Bool
  configWriteFault : Bool
  versionWriteFault : Bool
  removeFault : Bool
  cacheReadFault : Bool
  cacheWriteFault : Bool
  deriving DecidableEq, Repr

/-- Normal operation: no storage operation throws. -/
def noFaults : Faults :=
  ⟨false, false, false, false, false, false⟩

/-- `this.storageKey` (constructor, line 9). -/
def storageKey : String := "fnp-site-config"

/-- `this.configVersion` (constructor, line 10). -/
def configVersion : String := "2.0"

/-- `this.versionKey` (constructor, line 11). -/
def versionKey : String := "fnp-site-config-version"

/-- `getDefaultConfig()` (lines 19-44): the Default Schema. -/
def defaultConfig : Obj :=
  [("heroName", JVal.str "Rujita Munankarmi, FNP"),
   ("heroSubtitle", JVal.str
      "<strong>Primary care</strong> with <span class=\"accent\">CKD & hypertension</span> prevention and management"),
   ("profileImageUrl", JVal.str "assets/images/pfp.jpg"),
   ("acceptingPatients", JVal.bool false),
   ("availabilityStatus", JVal.str
      "Please contact us to inquire about availability."),
   ("showHeaderNav", JVal.bool false),
   ("showHeaderLogo", JVal.bool false),
   ("showHeroAvailability", JVal.bool false),
   ("showHeroCTA", JVal.bool false),
   ("showFooterCopyright", JVal.bool true),
   ("bannerEnabled", JVal.bool false),
   ("bannerText", JVal.str ""),
   ("bannerType", JVal.str "info"),
   ("theme", JVal.str "default"),
   ("businessName", JVal.str "CarenexLLC"),
   ("contactEmail", JVal.str "carenex.np@gmail.com"),
   ("location", JVal.str "Harford County, Maryland"),
   ("showContactBusiness", JVal.bool false),
   ("showContactLocation", JVal.bool true),
   ("showContactEmail", JVal.bool true),
   ("showContactAvailability", JVal.bool true)]

/-- The historic location literal rewritten by the first migration rule
(lines 76-83). -/
def belAirOld : String :=
  "Bel Air, Maryland (serving surrounding communities)"

/-- The ordered legacy-value rewrite rules of `load()` (lines 76-109):
`(field, old literal, new literal)`, applied in source order. -/
def legacyRules : List (String × String × String) :=
  [("location", belAirOld, "Harford County, Maryland"),
   ("heroName", "Jane Doe, FNP", "Rujita Munankarmi, FNP"),
   ("businessName", "dummyLLC", "CarenexLLC"),
   ("contactEmail", "contact@dummyllc.com", "carenex.np@gmail.com"),
   ("profileImageUrl", "assets/images/placeholder-profile.svg",
    "assets/images/pfp.jpg")]

/-- One legacy rewrite rule applied to the running `(merged, needsSave)`
pair: `if (merged[field] === old) then merged[field] = new; needsSave = true`. -/
def rewriteStep (st : Obj × Bool) (r : String × String × String) :
    Obj × Bool :=
  if lookupKey st.1 r.1 = some (JVal.str r.2.1) then
    (setKey st.1 r.1 (JVal.str r.2.2), true)
  else st

/-- All five legacy rewrite rules of `load()` (lines 76-109), in order. -/
def applyRewrites (st : Obj × Bool) : Obj × Bool :=
  legacyRules.foldl rewriteStep st

/-- The version-mismatch rebuild of `load()` (lines 66-73): reset to
defaults, then copy over only the blob keys the Default Schema knows. -/
def migrateRebuild (parsed : Obj) : Obj :=
  parsed.foldl
    (fun m p => if hasKey defaultConfig p.1 then setKey m p.1 p.2 else m)
    defaultConfig

/-- `save(config)` (lines 242-251): merge over defaults, stringify, write.
A throwing write is caught inside `save` itself, which then returns
`false` leaving the store unchanged. -/
def save (f : Faults) (s : Store) (config : Obj) : Bool × Store :=
  if f.configWriteFault then (false, s)
  else (true, setKey s storageKey (Item.json (spreadObj defaultConfig config)))

/-- `load()` (lines 50-126).  Returns the configuration handed to the
caller together with the store left behind.  The `catch` at line 122
returns a fresh copy of the defaults. -/
def load (f : Faults) (s : Store) : Obj × Store :=
  if f.readFault then (defaultConfig, s)
  else
    match lookupKey s storageKey with
    | none =>
      -- lines 118-121: first run, write the version token
      if f.versionWriteFault then (defaultConfig, s)
      else (defaultConfig, setKey s versionKey (Item.raw configVersion))
    | some (Item.json parsed) =>
      let needsMigration : Bool :=
        if lookupKey s versionKey = some (Item.raw configVersion) then false
        else true
      let st0 : Obj × Bool :=
        if needsMigration then (migrateRebuild parsed, true)
        else (spreadObj defaultConfig parsed, false)
      let st1 := applyRewrites st0
      if st1.2 then
        -- lines 111-115: auto-save migrated values, then update version
        let s1 := (save f s st1.1).2
        if f.versionWriteFault then (defaultConfig, s1)
        else (st1.1, setKey s1 versionKey (Item.raw configVersion))
      else (st1.1, s)
    | some _ =>
      -- `JSON.parse` throws on non-object content: caught at line 122
      (defaultConfig, s)

/-- `reset()` (lines 267-275): remove the config record only. -/
def reset (f : Faults) (s : Store) : Bool × Store :=
  if f.removeFault then (false, s)
  else (true, removeKey s storageKey)

/-- `update(updates)` (lines 258-261): load, merge, save. -/
def update (f : Faults) (s : Store) (updates : Obj) : Bool × Store :=
  let l := load f s
  save f l.2 (spreadObj l.1 updates)

/-- The image-cache keys and lifetime of `findLatestPfpImage()`
(lines 149-151). -/
def cacheKey : String := "fnp-latest-pfp-cache"

/-- `cacheTimeKey` of `findLatestPfpImage()` (line 150). -/
def cacheTimeKey : String := "fnp-latest-pfp-cache-time"

/-- `cacheDuration` (line 151): 24 hours in milliseconds. -/
def cacheDuration : Nat := 24 * 60 * 60 * 1000

/-- The candidate path for index `i` (line 179). -/
def imagePath (i : Nat) : String :=
  "assets/images/pfp" ++ toString i ++ ".jpg"

/-- `maxAttempts` (line 173). -/
def maxAttempts : Nat := 20

/-- The fallback placeholder path (line 201). -/
def fallbackPath : String := "assets/images/placeholder-profile.svg"

/-- The descending probe loop of `findLatestPfpImage()` (lines 178-187):
check `imagePath i` for `i = k, k-1, ..., 1`, returning the first hit. -/
def probeLoop (ex : String → Bool) : Nat → Option String
  | 0 => none
  | Nat.succ i =>
    if ex (imagePath (i + 1)) then some (imagePath (i + 1))
    else probeLoop ex i

/-- Digit-string parser standing for `parseInt(t, 10)` (line 158): the
numeric value of a decimal digit string, `none` on anything else (the
`NaN` case, under which the age test fails and the cache misses). -/
def parseNatAux : List Char → Nat → Option Nat
  | [], acc => some acc
  | c :: rest, acc =>
    if c.isDigit then parseNatAux rest (acc * 10 + (c.toNat - 48)) else none

/-- Parse a stored timestamp string (`parseInt(t, 10)`, line 158). -/
def parseNat (s : String) : Option Nat :=
  match s.data with
  | [] => none
  | l => parseNatAux l 0

/-- The cache fast path of `findLatestPfpImage()` (lines 153-169): a
non-empty cached path with a fresh (< 24h) timestamp that still probes
successfully.  Any exception while reading the cache is caught and
treated as a miss. -/
def cacheProbe (f : Faults) (ex : String → Bool) (now : Nat) (s : Store) :
    Option String :=
  if f.cacheReadFault then none
  else
    match lookupKey s cacheKey, lookupKey s cacheTimeKey with
    | some (Item.raw c), some (Item.raw t) =>
      if c = "" then none
      else
        match parseNat t with
        | some tn =>
          if now - tn < cacheDuration then
            (if ex c then some c else none)
          else none
        | none => none
    | _, _ => none

/-- The probe-and-cache path of `findLatestPfpImage()` (lines 171-208),
taken when the cache fast path misses.  A throwing cache write is caught
(lines 194-196 and 205-207) and the path is still returned. -/
def freshResolve (f : Faults) (ex : String → Bool) (now : Nat) (s : Store) :
    String × Store :=
  match probeLoop ex maxAttempts with
  | some path =>
    if f.cacheWriteFault then (path, s)
    else (path,
      setKey (setKey s cacheKey (Item.raw path)) cacheTimeKey
        (Item.raw (toString now)))
  | none =>
    if f.cacheWriteFault then (fallbackPath, s)
    else (fallbackPath,
      setKey (setKey s cacheKey (Item.raw fallbackPath)) cacheTimeKey
        (Item.raw (toString now)))

/-- `findLatestPfpImage()` (lines 148-209): cache fast path, else the
descending probe. -/
def findLatestPfpImage (f : Faults) (ex : String → Bool) (now : Nat)
    (s : Store) : String × Store :=
  match cacheProbe f ex now s with
  | some c => (c, s)
  | none => freshResolve f ex now s

/-! ### Association-list lemmas -/

theorem lookup_setKey_self {α : Type} (o : List (String × α)) (k : String)
    (v : α) : lookupKey (setKey o k v) k = some v := by
  induction o with
  | nil => simp [setKey, lookupKey]
  | cons p rest ih =>
    by_cases h : p.1 = k
    · simp [setKey, h, lookupKey]
    · simp [setKey, h, lookupKey, ih]

theorem lookup_setKey_ne {α : Type} (o : List (String × α)) {k k' : String}
    (v : α) (h : k' ≠ k) : lookupKey (setKey o k v) k' = lookupKey o k' := by
  induction o with
  | nil =>
    simp only [setKey, lookupKey]
    rw [if_neg (Ne.symm h)]
  | cons p rest ih =>
    by_cases hp : p.1 = k
    · simp only [setKey, if_pos hp, lookupKey]
      rw [if_neg (Ne.symm h), if_neg (by rw [hp]; exact Ne.symm h)]
    · simp only [setKey, if_neg hp, lookupKey, ih]

theorem hasKey_setKey_self {α : Type} (o : List (String × α)) (k : String)
    (v : α) : hasKey (setKey o k v) k = true := by
  simp [hasKey, lookup_setKey_self]

theorem hasKey_setKey_ne {α : Type} (o : List (String × α)) {k k' : String}
    (v : α) (h : k' ≠ k) : hasKey (setKey o k v) k' = hasKey o k' := by
  simp [hasKey, lookup_setKey_ne o v h]

theorem keysOf_setKey_of_hasKey {α : Type} (o : List (String × α))
    {k : String} (v : α) (h : hasKey o k = true) :
    keysOf (setKey o k v) = keysOf o := by
  induction o with
  | nil => simp [hasKey, lookupKey] at h
  | cons p rest ih =>
    by_cases hp : p.1 = k
    · simp [setKey, hp, keysOf]
    · have h' : hasKey rest k = true := by
        simpa [hasKey, lookupKey, hp] using h
      have hr := ih h'
      simp only [keysOf] at hr
      simp only [setKey, if_neg hp, keysOf, List.map_cons, hr]

theorem setKey_append_of_not_hasKey {α : Type} (o : List (String × α))
    {k : String} (v : α) (h : hasKey o k = false) :
    setKey o k v = o ++ [(k, v)] := by
  induction o with
  | nil => simp [setKey]
  | cons p rest ih =>
    have hp : ¬(p.1 = k) := by
      intro hh
      simp [hasKey, lookupKey, hh] at h
    have h' : hasKey rest k = false := by
      simpa [hasKey, lookupKey, hp] using h
    simp [setKey, hp, ih h']

theorem hasKey_iff_mem {α : Type} (o : List (String × α)) (k : String) :
    hasKey o k = true ↔ k ∈ keysOf o := by
  induction o with
  | nil => simp [hasKey, lookupKey, keysOf]
  | cons p rest ih =>
    by_cases hp : p.1 = k
    · simp [hasKey, lookupKey, hp, keysOf]
    · have hstep : hasKey (p :: rest) k = hasKey rest k := by
        simp [hasKey, lookupKey, hp]
      rw [hstep]
      simp only [keysOf, List.map_cons, List.mem_cons]
      constructor
      · intro hm
        exact Or.inr (ih.1 hm)
      · intro hm
        rcases hm with hm | hm
        · exact absurd hm.symm hp
        · exact ih.2 hm

theorem hasKey_of_mem {α : Type} {o : List (String × α)} {p : String × α}
    (h : p ∈ o) : hasKey o p.1 = true :=
  (hasKey_iff_mem o p.1).2 (List.mem_map.2 ⟨p, h, rfl⟩)

theorem nodup_setKey {α : Type} {o : List (String × α)} (k : String) (v : α)
    (h : NodupKeys o) : NodupKeys (setKey o k v) := by
  by_cases hk : hasKey o k = true
  · unfold NodupKeys
    rw [keysOf_setKey_of_hasKey o v hk]
    exact h
  · have hk' : hasKey o k = false := by
      cases hh : hasKey o k
      · rfl
      · exact absurd hh hk
    unfold NodupKeys
    rw [setKey_append_of_not_hasKey o v hk']
    have : keysOf (o ++ [(k, v)]) = keysOf o ++ [k] := by
      simp [keysOf]
    rw [this, List.nodup_append]
    refine ⟨h, List.nodup_singleton k, ?_⟩
    intro a ha hb
    rcases List.mem_singleton.1 hb with rfl
    exact absurd ((hasKey_iff_mem o a).2 ha) (by simp [hk'])

theorem setKey_eq_self {α : Type} {o : List (String × α)} {k : String}
    {v : α} (h : lookupKey o k = some v) : setKey o k v = o := by
  induction o with
  | nil => simp [lookupKey] at h
  | cons p rest ih =>
    by_cases hp : p.1 = k
    · have : p.2 = v := by
        simpa [lookupKey, hp] using h
      obtain ⟨p1, p2⟩ := p
      simp only at hp this
      simp [setKey, hp, this]
    · have h' : lookupKey rest k = some v := by
        simpa [lookupKey, hp] using h
      simp [setKey, hp, ih h']

theorem lookup_removeKey_self {α : Type} (o : List (String × α))
    (k : String) : lookupKey (removeKey o k) k = none := by
  induction o with
  | nil => simp [removeKey, lookupKey]
  | cons p rest ih =>
    by_cases hp : p.1 = k
    · simpa [removeKey, hp] using ih
    · simpa [removeKey, hp, lookupKey] using ih

theorem lookup_removeKey_ne {α : Type} (o : List (String × α))
    {k k' : String} (h : k' ≠ k) :
    lookupKey (removeKey o k) k' = lookupKey o k' := by
  induction o with
  | nil => simp [removeKey, lookupKey]
  | cons p rest ih =>
    by_cases hp : p.1 = k
    · have hp' : ¬(p.1 = k') := by
        rw [hp]; exact Ne.symm h
      simp only [removeKey, if_pos hp, lookupKey, if_neg hp', ih]
    · by_cases hp' : p.1 = k'
      · simp only [removeKey, if_neg hp, lookupKey, if_pos hp']
      · simp only [removeKey, if_neg hp, lookupKey, if_neg hp', ih]

/-! ### Spread lemmas -/

theorem spread_cons {α : Type} (a : List (String × α)) (p : String × α)
    (b : List (String × α)) :
    spreadObj a (p :: b) = spreadObj (setKey a p.1 p.2) b := rfl

theorem spread_append {α : Type} (a b c : List (String × α)) :
    spreadObj a (b ++ c) = spreadObj (spreadObj a b) c := by
  simp [spreadObj, List.foldl_append]

theorem hasKey_spread {α : Type} (a b : List (String × α)) (k : String) :
    hasKey (spreadObj a b) k = (hasKey a k || hasKey b k) := by
  induction b generalizing a with
  | nil => simp [spreadObj, hasKey, lookupKey]
  | cons p rest ih =>
    rw [spread_cons, ih]
    by_cases hp : p.1 = k
    · subst hp
      rw [hasKey_setKey_self]
      have hh : hasKey (p :: rest) p.1 = true := by
        simp [hasKey, lookupKey]
      rw [hh]
      simp
    · rw [hasKey_setKey_ne a p.2 (fun hh => hp hh.symm)]
      have hh : hasKey (p :: rest) k = hasKey rest k := by
        simp [hasKey, lookupKey, hp]
      rw [hh]

theorem lookup_spread {α : Type} (a : List (String × α))
    {b : List (String × α)} (k : String) (hb : NodupKeys b) :
    lookupKey (spreadObj a b) k =
      if hasKey b k then lookupKey b k else lookupKey a k := by
  induction b generalizing a with
  | nil => simp [spreadObj, hasKey, lookupKey]
  | cons p rest ih =>
    have hb2 : (p.1 :: keysOf rest).Nodup := by
      simpa [NodupKeys, keysOf] using hb
    have hb' : NodupKeys rest := by
      simpa [NodupKeys, keysOf] using (List.nodup_cons.1 hb2).2
    have hnotin : p.1 ∉ keysOf rest := (List.nodup_cons.1 hb2).1
    rw [spread_cons, ih _ hb']
    by_cases hp : p.1 = k
    · subst hp
      have hf : hasKey rest p.1 = false := by
        cases hh : hasKey rest p.1
        · rfl
        · exact absurd ((hasKey_iff_mem rest p.1).1 hh) hnotin
      have h1 : hasKey (p :: rest) p.1 = true := by
        simp [hasKey, lookupKey]
      have h2 : lookupKey (p :: rest) p.1 = some p.2 := by
        simp [lookupKey]
      rw [hf, h1, h2, lookup_setKey_self]
      simp
    · rw [lookup_setKey_ne a p.2 (fun hh => hp hh.symm)]
      have h1 : hasKey (p :: rest) k = hasKey rest k := by
        simp [hasKey, lookupKey, hp]
      have h2 : lookupKey (p :: rest) k = lookupKey rest k := by
        simp [lookupKey, hp]
      rw [h1, h2]

theorem keysOf_spread_ext {α : Type} (a b : List (String × α)) :
    ∃ ext, keysOf (spreadObj a b) = keysOf a ++ ext := by
  induction b generalizing a with
  | nil => exact ⟨[], by simp [spreadObj]⟩
  | cons p rest ih =>
    rw [spread_cons]
    rcases ih (setKey a p.1 p.2) with ⟨e, he⟩
    by_cases hk : hasKey a p.1 = true
    · exact ⟨e, by rw [he, keysOf_setKey_of_hasKey a p.2 hk]⟩
    · have hk' : hasKey a p.1 = false := by
        cases hh : hasKey a p.1
        · rfl
        · exact absurd hh hk
      refine ⟨p.1 :: e, ?_⟩
      rw [he, setKey_append_of_not_hasKey a p.2 hk']
      simp [keysOf]

theorem nodup_spread {α : Type} {a : List (String × α)}
    (b : List (String × α)) (ha : NodupKeys a) :
    NodupKeys (spreadObj a b) := by
  induction b generalizing a with
  | nil => exact ha
  | cons p rest ih => exact spread_cons a p rest ▸ ih (nodup_setKey p.1 p.2 ha)

theorem keysOf_spread_of_sub {α : Type} {a b : List (String × α)}
    (h : ∀ p ∈ b, hasKey a p.1 = true) :
    keysOf (spreadObj a b) = keysOf a := by
  induction b generalizing a with
  | nil => simp [spreadObj]
  | cons p rest ih =>
    rw [spread_cons]
    have h1 : keysOf (setKey a p.1 p.2) = keysOf a :=
      keysOf_setKey_of_hasKey a p.2 (h p (List.mem_cons_self p rest))
    have h2 : ∀ q ∈ rest, hasKey (setKey a p.1 p.2) q.1 = true := by
      intro q hq
      by_cases hqp : q.1 = p.1
      · rw [hqp]; exact hasKey_setKey_self a p.1 p.2
      · rw [hasKey_setKey_ne a p.2 hqp]
        exact h q (List.mem_cons_of_mem p hq)
    rw [ih h2, h1]

theorem hasKey_append {α : Type} (a b : List (String × α)) (k : String) :
    hasKey (a ++ b) k = (hasKey a k || hasKey b k) := by
  induction a with
  | nil => simp [hasKey, lookupKey]
  | cons p rest ih =>
    by_cases hp : p.1 = k
    · simp [hasKey, lookupKey, hp]
    · simpa [hasKey, lookupKey, hp] using ih

theorem setKey_inplace {α : Type} (pre suf : List (String × α))
    (k : String) (w v : α) (h : hasKey pre k = false) :
    setKey (pre ++ (k, w) :: suf) k v = pre ++ (k, v) :: suf := by
  induction pre with
  | nil => simp [setKey]
  | cons q pre ih =>
    have hq : ¬(q.1 = k) := by
      intro hh
      simp [hasKey, lookupKey, hh] at h
    have h' : hasKey pre k = false := by
      simpa [hasKey, lookupKey, hq] using h
    simp [setKey, hq, ih h']

theorem spread_inplace {α : Type} :
    ∀ (b pre a : List (String × α)), (keysOf (pre ++ a)).Nodup →
      keysOf a = keysOf b → spreadObj (pre ++ a) b = pre ++ b := by
  intro b
  induction b with
  | nil =>
    intro pre a _ hk
    have ha : a = [] := by
      simpa [keysOf, List.map_eq_nil_iff] using hk
    subst ha
    simp [spreadObj]
  | cons p b ih =>
    intro pre a hnd hk
    obtain ⟨p1, p2⟩ := p
    match a with
    | [] => simp [keysOf] at hk
    | (q1, q2) :: a' =>
      have hk' : q1 = p1 ∧ keysOf a' = keysOf b := by
        simpa [keysOf] using hk
      obtain ⟨hq1, hka⟩ := hk'
      subst hq1
      have hndk : (keysOf pre ++ q1 :: keysOf a').Nodup := by
        simpa [keysOf] using hnd
      have hpre : hasKey pre q1 = false := by
        have hdisj := (List.nodup_append.1 hndk).2.2
        cases hh : hasKey pre q1
        · rfl
        · exact absurd (List.mem_cons_self q1 (keysOf a'))
            (hdisj ((hasKey_iff_mem pre q1).1 hh))
      rw [spread_cons]
      simp only
      rw [setKey_inplace pre a' q1 q2 p2 hpre]
      have hstep : pre ++ (q1, p2) :: a' = (pre ++ [(q1, p2)]) ++ a' := by
        simp
      rw [hstep, ih (pre ++ [(q1, p2)]) a' ?_ hka]
      · simp
      · simpa [keysOf] using hndk

theorem spread_disjoint {α : Type} :
    ∀ (b a : List (String × α)), (keysOf b).Nodup →
      (∀ p ∈ b, hasKey a p.1 = false) → spreadObj a b = a ++ b := by
  intro b
  induction b with
  | nil =>
    intro a _ _
    simp [spreadObj]
  | cons p b ih =>
    intro a hnd hdis
    obtain ⟨p1, p2⟩ := p
    have hndk : (p1 :: keysOf b).Nodup := by
      simpa [keysOf] using hnd
    rw [spread_cons]
    simp only
    rw [setKey_append_of_not_hasKey a p2 (hdis (p1, p2) (List.mem_cons_self _ b))]
    rw [ih (a ++ [(p1, p2)]) ((List.nodup_cons.1 hndk).2) ?_]
    · simp
    · intro q hq
      rw [hasKey_append]
      have h1 : hasKey a q.1 = false := hdis q (List.mem_cons_of_mem _ hq)
      have h2 : hasKey [(p1, p2)] q.1 = false := by
        have : ¬(p1 = q.1) := by
          intro hh
          exact (List.nodup_cons.1 hndk).1
            (hh ▸ List.mem_map.2 ⟨q, hq, rfl⟩)
        simp [hasKey, lookupKey, this]
      rw [h1, h2]
      rfl

theorem spread_self {α : Type} (a b : List (String × α)) (ext : List String)
    (hb : NodupKeys b) (hext : keysOf b = keysOf a ++ ext) :
    spreadObj a b = b := by
  have hsplit : b.take a.length ++ b.drop a.length = b :=
    List.take_append_drop a.length b
  have hlen : a.length = (keysOf a).length := by
    simp [keysOf]
  have hk1 : keysOf (b.take a.length) = keysOf a := by
    unfold keysOf
    rw [List.map_take]
    show (keysOf b).take a.length = keysOf a
    rw [hext, hlen, List.take_left]
  have hk2 : keysOf (b.drop a.length) = ext := by
    unfold keysOf
    rw [List.map_drop]
    show (keysOf b).drop a.length = ext
    rw [hext, hlen, List.drop_left]
  have hbnd : (keysOf (b.take a.length) ++ keysOf (b.drop a.length)).Nodup := by
    have : keysOf (b.take a.length) ++ keysOf (b.drop a.length) = keysOf b := by
      unfold keysOf
      rw [← List.map_append, hsplit]
    rw [this]
    exact hb
  obtain ⟨hnd1, hnd2, hdisj⟩ := List.nodup_append.1 hbnd
  have step1 : spreadObj a (b.take a.length) = b.take a.length := by
    have := spread_inplace (b.take a.length) [] a (by simpa using hk1 ▸ hnd1)
      hk1.symm
    simpa using this
  have step2 : spreadObj (b.take a.length) (b.drop a.length) =
      b.take a.length ++ b.drop a.length := by
    refine spread_disjoint (b.drop a.length) (b.take a.length) hnd2 ?_
    intro q hq
    cases hh : hasKey (b.take a.length) q.1
    · rfl
    · exact absurd (List.mem_map.2 ⟨q, hq, rfl⟩)
        (fun hm => (hdisj ((hasKey_iff_mem _ q.1).1 hh)) hm)
  calc spreadObj a b = spreadObj a (b.take a.length ++ b.drop a.length) := by
        rw [hsplit]
    _ = spreadObj (spreadObj a (b.take a.length)) (b.drop a.length) :=
        spread_append _ _ _
    _ = b := by rw [step1, step2, hsplit]

/-! ### Lemmas about the legacy rewrite rules -/

theorem hasKey_eq_of_keysOf_eq {α β : Type} {o₁ : List (String × α)}
    {o₂ : List (String × β)} (h : keysOf o₁ = keysOf o₂) (k : String) :
    hasKey o₁ k = hasKey o₂ k := by
  by_cases hm : k ∈ keysOf o₂
  · rw [(hasKey_iff_mem o₁ k).2 (h ▸ hm), (hasKey_iff_mem o₂ k).2 hm]
  · have h1 : hasKey o₁ k = false := by
      cases hh : hasKey o₁ k
      · rfl
      · exact absurd (h ▸ (hasKey_iff_mem o₁ k).1 hh) hm
    have h2 : hasKey o₂ k = false := by
      cases hh : hasKey o₂ k
      · rfl
      · exact absurd ((hasKey_iff_mem o₂ k).1 hh) hm
    rw [h1, h2]

theorem rewriteStep_lookup_ne (st : Obj × Bool) (r : String × String × String)
    {k : String} (h : k ≠ r.1) :
    lookupKey (rewriteStep st r).1 k = lookupKey st.1 k := by
  unfold rewriteStep
  split
  · exact lookup_setKey_ne st.1 _ h
  · rfl

theorem rewriteStep_skip {st : Obj × Bool} {r : String × String × String}
    (h : lookupKey st.1 r.1 ≠ some (JVal.str r.2.1)) : rewriteStep st r = st := by
  unfold rewriteStep
  rw [if_neg h]

theorem rewriteStep_not_old (st : Obj × Bool) (r : String × String × String)
    (h : r.2.2 ≠ r.2.1) :
    lookupKey (rewriteStep st r).1 r.1 ≠ some (JVal.str r.2.1) := by
  unfold rewriteStep
  by_cases hc : lookupKey st.1 r.1 = some (JVal.str r.2.1)
  · rw [if_pos hc]
    simp only [lookup_setKey_self]
    intro hh
    exact h (JVal.str.inj (Option.some.inj hh))
  · rw [if_neg hc]
    exact hc

theorem rewriteStep_flag_mono (st : Obj × Bool) (r : String × String × String)
    (h : st.2 = true) : (rewriteStep st r).2 = true := by
  unfold rewriteStep
  split
  · rfl
  · exact h

theorem rewriteStep_flag_back (st : Obj × Bool) (r : String × String × String)
    (h : (rewriteStep st r).2 = false) :
    rewriteStep st r = st ∧ st.2 = false := by
  by_cases hc : lookupKey st.1 r.1 = some (JVal.str r.2.1)
  · simp [rewriteStep, hc] at h
  · have he := rewriteStep_skip hc
    rw [he] at h
    exact ⟨he, h⟩

theorem rewriteStep_keysOf (st : Obj × Bool) (r : String × String × String) :
    keysOf (rewriteStep st r).1 = keysOf st.1 := by
  by_cases hc : lookupKey st.1 r.1 = some (JVal.str r.2.1)
  · simp only [rewriteStep, if_pos hc]
    exact keysOf_setKey_of_hasKey st.1 _ (by simp [hasKey, hc])
  · rw [rewriteStep_skip hc]

theorem applyRewrites_eq (st : Obj × Bool) :
    applyRewrites st =
      rewriteStep (rewriteStep (rewriteStep (rewriteStep (rewriteStep st
        ("location", belAirOld, "Harford County, Maryland"))
        ("heroName", "Jane Doe, FNP", "Rujita Munankarmi, FNP"))
        ("businessName", "dummyLLC", "CarenexLLC"))
        ("contactEmail", "contact@dummyllc.com", "carenex.np@gmail.com"))
        ("profileImageUrl", "assets/images/placeholder-profile.svg",
         "assets/images/pfp.jpg") := rfl

theorem applyRewrites_lookup_ne (st : Obj × Bool) {k : String}
    (h1 : k ≠ "location") (h2 : k ≠ "heroName") (h3 : k ≠ "businessName")
    (h4 : k ≠ "contactEmail") (h5 : k ≠ "profileImageUrl") :
    lookupKey (applyRewrites st).1 k = lookupKey st.1 k := by
  rw [applyRewrites_eq,
    rewriteStep_lookup_ne _ _ h5, rewriteStep_lookup_ne _ _ h4,
    rewriteStep_lookup_ne _ _ h3, rewriteStep_lookup_ne _ _ h2,
    rewriteStep_lookup_ne _ _ h1]

theorem applyRewrites_keysOf (st : Obj × Bool) :
    keysOf (applyRewrites st).1 = keysOf st.1 := by
  rw [applyRewrites_eq, rewriteStep_keysOf, rewriteStep_keysOf,
    rewriteStep_keysOf, rewriteStep_keysOf, rewriteStep_keysOf]

theorem applyRewrites_nodup (st : Obj × Bool) (h : NodupKeys st.1) :
    NodupKeys (applyRewrites st).1 := by
  unfold NodupKeys
  rw [applyRewrites_keysOf]
  exact h

theorem applyRewrites_hasKey (st : Obj × Bool) (k : String) :
    hasKey (applyRewrites st).1 k = hasKey st.1 k :=
  hasKey_eq_of_keysOf_eq (applyRewrites_keysOf st) k

theorem applyRewrites_flag_mono (st : Obj × Bool) (h : st.2 = true) :
    (applyRewrites st).2 = true := by
  rw [applyRewrites_eq]
  exact rewriteStep_flag_mono _ _ (rewriteStep_flag_mono _ _
    (rewriteStep_flag_mono _ _ (rewriteStep_flag_mono _ _
      (rewriteStep_flag_mono _ _ h))))

theorem applyRewrites_flag_back (st : Obj × Bool)
    (h : (applyRewrites st).2 = false) : applyRewrites st = st ∧ st.2 = false := by
  rw [applyRewrites_eq] at h
  obtain ⟨e5, h4⟩ := rewriteStep_flag_back _ _ h
  obtain ⟨e4, h3⟩ := rewriteStep_flag_back _ _ h4
  obtain ⟨e3, h2⟩ := rewriteStep_flag_back _ _ h3
  obtain ⟨e2, h1⟩ := rewriteStep_flag_back _ _ h2
  obtain ⟨e1, h0⟩ := rewriteStep_flag_back _ _ h1
  refine ⟨?_, h0⟩
  rw [applyRewrites_eq, e5, e4, e3, e2, e1]

theorem applyRewrites_not_old (st : Obj × Bool) :
    ∀ r ∈ legacyRules,
      lookupKey (applyRewrites st).1 r.1 ≠ some (JVal.str r.2.1) := by
  intro r hr
  simp only [legacyRules, List.mem_cons, List.not_mem_nil, or_false] at hr
  rcases hr with rfl | rfl | rfl | rfl | rfl
  · rw [applyRewrites_eq,
      rewriteStep_lookup_ne _ _ (by decide), rewriteStep_lookup_ne _ _ (by decide),
      rewriteStep_lookup_ne _ _ (by decide), rewriteStep_lookup_ne _ _ (by decide)]
    exact rewriteStep_not_old _ _ (by decide)
  · rw [applyRewrites_eq,
      rewriteStep_lookup_ne _ _ (by decide), rewriteStep_lookup_ne _ _ (by decide),
      rewriteStep_lookup_ne _ _ (by decide)]
    exact rewriteStep_not_old _ _ (by decide)
  · rw [applyRewrites_eq,
      rewriteStep_lookup_ne _ _ (by decide), rewriteStep_lookup_ne _ _ (by decide)]
    exact rewriteStep_not_old _ _ (by decide)
  · rw [applyRewrites_eq, rewriteStep_lookup_ne _ _ (by decide)]
    exact rewriteStep_not_old _ _ (by decide)
  · rw [applyRewrites_eq]
    exact rewriteStep_not_old _ _ (by decide)

theorem applyRewrites_id (st : Obj × Bool)
    (h : ∀ r ∈ legacyRules, lookupKey st.1 r.1 ≠ some (JVal.str r.2.1)) :
    applyRewrites st = st := by
  have m1 : ("location", belAirOld, "Harford County, Maryland") ∈ legacyRules :=
    List.mem_cons_self _ _
  have m2 : ("heroName", "Jane Doe, FNP", "Rujita Munankarmi, FNP") ∈ legacyRules :=
    List.mem_cons_of_mem _ (List.mem_cons_self _ _)
  have m3 : ("businessName", "dummyLLC", "CarenexLLC") ∈ legacyRules :=
    List.mem_cons_of_mem _ (List.mem_cons_of_mem _ (List.mem_cons_self _ _))
  have m4 : ("contactEmail", "contact@dummyllc.com", "carenex.np@gmail.com") ∈
      legacyRules :=
    List.mem_cons_of_mem _ (List.mem_cons_of_mem _
      (List.mem_cons_of_mem _ (List.mem_cons_self _ _)))
  have m5 : ("profileImageUrl", "assets/images/placeholder-profile.svg",
      "assets/images/pfp.jpg") ∈ legacyRules :=
    List.mem_cons_of_mem _ (List.mem_cons_of_mem _ (List.mem_cons_of_mem _
      (List.mem_cons_of_mem _ (List.mem_cons_self _ _))))
  rw [applyRewrites_eq, rewriteStep_skip (h _ m1), rewriteStep_skip (h _ m2),
    rewriteStep_skip (h _ m3), rewriteStep_skip (h _ m4),
    rewriteStep_skip (h _ m5)]

theorem applyRewrites_fix (st : Obj × Bool) (d : Bool) :
    applyRewrites ((applyRewrites st).1, d) = ((applyRewrites st).1, d) :=
  applyRewrites_id _ (fun r hr => applyRewrites_not_old st r hr)

theorem applyRewrites_location (st : Obj × Bool)
    (h : lookupKey st.1 "location" = some (JVal.str belAirOld)) :
    lookupKey (applyRewrites st).1 "location" =
        some (JVal.str "Harford County, Maryland") ∧
      (applyRewrites st).2 = true := by
  have h1 : rewriteStep st ("location", belAirOld, "Harford County, Maryland") =
      (setKey st.1 "location" (JVal.str "Harford County, Maryland"), true) := by
    unfold rewriteStep
    rw [if_pos h]
  constructor
  · rw [applyRewrites_eq,
      rewriteStep_lookup_ne _ _ (by decide), rewriteStep_lookup_ne _ _ (by decide),
      rewriteStep_lookup_ne _ _ (by decide), rewriteStep_lookup_ne _ _ (by decide),
      h1]
    exact lookup_setKey_self st.1 _ _
  · rw [applyRewrites_eq]
    refine rewriteStep_flag_mono _ _ (rewriteStep_flag_mono _ _
      (rewriteStep_flag_mono _ _ (rewriteStep_flag_mono _ _ ?_)))
    rw [h1]

/-! ### Lemmas about the version-mismatch rebuild -/

theorem defaultConfig_nodup : NodupKeys defaultConfig := by
  unfold NodupKeys
  decide

theorem keysOf_migrateRebuild (P : Obj) :
    keysOf (migrateRebuild P) = keysOf defaultConfig := by
  suffices aux : ∀ (P m : Obj), keysOf m = keysOf defaultConfig →
      keysOf (P.foldl
        (fun m p => if hasKey defaultConfig p.1 then setKey m p.1 p.2 else m)
        m) = keysOf defaultConfig by
    exact aux P defaultConfig rfl
  intro P
  induction P with
  | nil => intro m hm; exact hm
  | cons p rest ih =>
    intro m hm
    by_cases hd : hasKey defaultConfig p.1 = true
    · have hmk : hasKey m p.1 = true := by
        rw [hasKey_eq_of_keysOf_eq hm p.1]
        exact hd
      simp only [List.foldl_cons, if_pos hd]
      exact ih (setKey m p.1 p.2) (by rw [keysOf_setKey_of_hasKey m p.2 hmk, hm])
    · simp only [List.foldl_cons, if_neg hd]
      exact ih m hm

theorem nodup_migrateRebuild (P : Obj) : NodupKeys (migrateRebuild P) := by
  unfold NodupKeys
  rw [keysOf_migrateRebuild]
  exact defaultConfig_nodup

theorem lookup_migrateRebuild {P : Obj} (hP : NodupKeys P) (k : String) :
    lookupKey (migrateRebuild P) k =
      if (hasKey defaultConfig k && hasKey P k) then lookupKey P k
      else lookupKey defaultConfig k := by
  suffices aux : ∀ (P m : Obj), NodupKeys P →
      lookupKey (P.foldl
        (fun m p => if hasKey defaultConfig p.1 then setKey m p.1 p.2 else m)
        m) k =
      if (hasKey defaultConfig k && hasKey P k) then lookupKey P k
      else lookupKey m k by
    exact aux P defaultConfig hP
  intro P
  induction P with
  | nil => intro m _; simp [hasKey, lookupKey]
  | cons p rest ih =>
    intro m hnd
    have hnd2 : (p.1 :: keysOf rest).Nodup := by
      simpa [NodupKeys, keysOf] using hnd
    have hnotin : p.1 ∉ keysOf rest := (List.nodup_cons.1 hnd2).1
    have hndr : NodupKeys rest := by
      simpa [NodupKeys, keysOf] using (List.nodup_cons.1 hnd2).2
    simp only [List.foldl_cons]
    by_cases hpk : p.1 = k
    · subst hpk
      have hrest : hasKey rest p.1 = false := by
        cases hh : hasKey rest p.1
        · rfl
        · exact absurd ((hasKey_iff_mem rest p.1).1 hh) hnotin
      have hcons : hasKey (p :: rest) p.1 = true := by
        simp [hasKey, lookupKey]
      have hlc : lookupKey (p :: rest) p.1 = some p.2 := by
        simp [lookupKey]
      rw [ih _ hndr, hrest, hcons, hlc]
      by_cases hd : hasKey defaultConfig p.1 = true
      · simp only [if_pos hd, hd, Bool.true_and, Bool.and_false]
        simp only [Bool.false_eq_true, if_false, if_true]
        exact lookup_setKey_self m p.1 p.2
      · have hd' : hasKey defaultConfig p.1 = false := by
          cases hh : hasKey defaultConfig p.1
          · rfl
          · exact absurd hh hd
        simp only [if_neg hd, hd', Bool.false_and]
        simp only [Bool.false_eq_true, if_false]
    · have hcons : hasKey (p :: rest) k = hasKey rest k := by
        simp [hasKey, lookupKey, hpk]
      have hlc : lookupKey (p :: rest) k = lookupKey rest k := by
        simp [lookupKey, hpk]
      rw [ih _ hndr, hcons, hlc]
      by_cases hd : hasKey defaultConfig p.1 = true
      · rw [if_pos hd, lookup_setKey_ne m p.2 (fun hh => hpk hh.symm)]
      · rw [if_neg hd]

theorem migrateRebuild_eq_spread (P : Obj)
    (h : ∀ p ∈ P, hasKey defaultConfig p.1 = true) :
    migrateRebuild P = spreadObj defaultConfig P := by
  suffices aux : ∀ (P m : Obj), (∀ p ∈ P, hasKey defaultConfig p.1 = true) →
      P.foldl
        (fun m p => if hasKey defaultConfig p.1 then setKey m p.1 p.2 else m)
        m = spreadObj m P by
    exact aux P defaultConfig h
  intro P
  induction P with
  | nil => intro m _; rfl
  | cons p rest ih =>
    intro m hall
    simp only [List.foldl_cons, if_pos (hall p (List.mem_cons_self p rest))]
    rw [spread_cons]
    exact ih (setKey m p.1 p.2) (fun q hq => hall q (List.mem_cons_of_mem p hq))

/-! ### Lemmas about `load` -/

theorem storage_ne_version : storageKey ≠ versionKey := by decide

theorem load_absent {s : Store} (hc : lookupKey s storageKey = none) :
    load noFaults s = (defaultConfig, setKey s versionKey (Item.raw configVersion)) := by
  simp [load, noFaults, hc]

theorem load_raw {s : Store} {str : String}
    (hc : lookupKey s storageKey = some (Item.raw str)) :
    load noFaults s = (defaultConfig, s) := by
  simp [load, noFaults, hc]

theorem load_corrupt {f : Faults} {s : Store} (hr : f.readFault = false)
    (hc : lookupKey s storageKey = some Item.corrupt) :
    load f s = (defaultConfig, s) := by
  simp [load, hr, hc]

theorem load_match_version {s : Store} {parsed : Obj}
    (hv : lookupKey s versionKey = some (Item.raw configVersion))
    (hc : lookupKey s storageKey = some (Item.json parsed)) :
    load noFaults s =
      (let st1 := applyRewrites (spreadObj defaultConfig parsed, false)
       if st1.2 then
         (st1.1, setKey (setKey s storageKey
             (Item.json (spreadObj defaultConfig st1.1))) versionKey
           (Item.raw configVersion))
       else (st1.1, s)) := by
  simp only [load, save, noFaults, hc, hv, eq_self_iff_true, ite_true,
    Bool.false_eq_true, ite_false]

theorem load_mismatch {s : Store} {parsed : Obj}
    (hv : lookupKey s versionKey ≠ some (Item.raw configVersion))
    (hc : lookupKey s storageKey = some (Item.json parsed)) :
    load noFaults s =
      (let st1 := applyRewrites (migrateRebuild parsed, true)
       (st1.1, setKey (setKey s storageKey
           (Item.json (spreadObj defaultConfig st1.1))) versionKey
         (Item.raw configVersion))) := by
  have hflag : (applyRewrites (migrateRebuild parsed, true)).2 = true :=
    applyRewrites_flag_mono _ rfl
  simp only [load, save, noFaults, hc, if_neg hv, Bool.false_eq_true, if_false,
    if_true, hflag]

theorem load_stable {s : Store} {r : Obj}
    (hv : lookupKey s versionKey = some (Item.raw configVersion))
    (hc : lookupKey s storageKey = some (Item.json r))
    (hnd : NodupKeys r)
    (hext : ∃ ext, keysOf r = keysOf defaultConfig ++ ext)
    (hno : ∀ ru ∈ legacyRules, lookupKey r ru.1 ≠ some (JVal.str ru.2.1)) :
    load noFaults s = (r, s) := by
  obtain ⟨ext, hext⟩ := hext
  have hsp : spreadObj defaultConfig r = r :=
    spread_self defaultConfig r ext hnd hext
  have hid : applyRewrites (r, false) = (r, false) :=
    applyRewrites_id _ (fun ru hru => hno ru hru)
  rw [load_match_version hv hc]
  simp [hsp, hid]

theorem load_saved (s : Store) (r : Obj) (hnd : NodupKeys r)
    (hext : ∃ ext, keysOf r = keysOf defaultConfig ++ ext)
    (hno : ∀ ru ∈ legacyRules, lookupKey r ru.1 ≠ some (JVal.str ru.2.1)) :
    load noFaults (setKey (setKey s storageKey
        (Item.json (spreadObj defaultConfig r))) versionKey
      (Item.raw configVersion)) =
      (r, setKey (setKey s storageKey
          (Item.json (spreadObj defaultConfig r))) versionKey
        (Item.raw configVersion)) := by
  obtain ⟨ext, hext'⟩ := hext
  have hsp : spreadObj defaultConfig r = r :=
    spread_self defaultConfig r ext hnd hext'
  rw [hsp]
  exact load_stable (lookup_setKey_self _ _ _)
    (by
      rw [lookup_setKey_ne _ _ storage_ne_version]
      exact lookup_setKey_self _ _ _)
    hnd ⟨ext, hext'⟩ hno

theorem load_twice (s : Store) :
    load noFaults (load noFaults s).2 = ((load noFaults s).1, (load noFaults s).2) := by
  cases hc : lookupKey s storageKey with
  | none =>
    rw [load_absent hc]
    have hc2 : lookupKey (setKey s versionKey (Item.raw configVersion))
        storageKey = none := by
      rw [lookup_setKey_ne _ _ storage_ne_version]
      exact hc
    rw [load_absent hc2]
    rw [setKey_eq_self (lookup_setKey_self s versionKey (Item.raw configVersion))]
  | some it =>
    cases it with
    | raw str =>
      rw [load_raw hc, load_raw hc]
    | corrupt =>
      rw [load_corrupt rfl hc, load_corrupt rfl hc]
    | json parsed =>
      by_cases hv : lookupKey s versionKey = some (Item.raw configVersion)
      · rw [load_match_version hv hc]
        simp only
        cases hflag : (applyRewrites (spreadObj defaultConfig parsed, false)).2 with
        | false =>
          simp only [hflag, Bool.false_eq_true, if_false]
          rw [load_match_version hv hc]
          simp only [hflag, Bool.false_eq_true, if_false]
        | true =>
          simp only [hflag, if_true]
          exact load_saved s _
            (applyRewrites_nodup _ (nodup_spread parsed defaultConfig_nodup))
            (by
              rw [applyRewrites_keysOf]
              exact keysOf_spread_ext defaultConfig parsed)
            (applyRewrites_not_old _)
      · rw [load_mismatch hv hc]
        simp only
        exact load_saved s _
          (applyRewrites_nodup _ (nodup_migrateRebuild parsed))
          (by
            rw [applyRewrites_keysOf, keysOf_migrateRebuild]
            exact ⟨[], (List.append_nil _).symm⟩)
          (applyRewrites_not_old _)

theorem load_readFault {f : Faults} (s : Store) (hr : f.readFault = true) :
    load f s = (defaultConfig, s) := by
  simp [load, hr]

theorem load_mismatch_faults {f : Faults} {s : Store} {parsed : Obj}
    (hr : f.readFault = false)
    (hv : lookupKey s versionKey ≠ some (Item.raw configVersion))
    (hc : lookupKey s storageKey = some (Item.json parsed)) :
    load f s =
      (let r := (applyRewrites (migrateRebuild parsed, true)).1
       let s1 := (save f s r).2
       if f.versionWriteFault then (defaultConfig, s1)
       else (r, setKey s1 versionKey (Item.raw configVersion))) := by
  have hflag : (applyRewrites (migrateRebuild parsed, true)).2 = true :=
    applyRewrites_flag_mono _ rfl
  simp only [load, hr, Bool.false_eq_true, ite_false, hc, if_neg hv, ite_true,
    hflag]

theorem default_not_old :
    ∀ ru ∈ legacyRules,
      lookupKey defaultConfig ru.1 ≠ some (JVal.str ru.2.1) := by
  decide

theorem load_after_save (s : Store) (P : Obj) (hnd : NodupKeys P)
    (hvalid : ∀ k, hasKey P k = true → hasKey defaultConfig k = true)
    (hnol : ∀ ru ∈ legacyRules, lookupKey P ru.1 ≠ some (JVal.str ru.2.1)) :
    (load noFaults (save noFaults s P).2).1 = spreadObj defaultConfig P := by
  have hsave : (save noFaults s P).2 =
      setKey s storageKey (Item.json (spreadObj defaultConfig P)) := rfl
  have hc1 : lookupKey (save noFaults s P).2 storageKey =
      some (Item.json (spreadObj defaultConfig P)) := by
    rw [hsave]
    exact lookup_setKey_self _ _ _
  have hndP : NodupKeys (spreadObj defaultConfig P) :=
    nodup_spread P defaultConfig_nodup
  have hkeys : keysOf (spreadObj defaultConfig P) = keysOf defaultConfig :=
    keysOf_spread_of_sub (fun p hp => hvalid p.1 (hasKey_of_mem hp))
  have hP'nol : ∀ ru ∈ legacyRules,
      lookupKey (spreadObj defaultConfig P) ru.1 ≠ some (JVal.str ru.2.1) := by
    intro ru hru
    rw [lookup_spread defaultConfig ru.1 hnd]
    by_cases hk : hasKey P ru.1 = true
    · rw [if_pos hk]
      exact hnol ru hru
    · rw [if_neg hk]
      exact default_not_old ru hru
  have hsp : spreadObj defaultConfig (spreadObj defaultConfig P) =
      spreadObj defaultConfig P :=
    spread_self _ _ [] hndP (by rw [hkeys, List.append_nil])
  by_cases hv : lookupKey (save noFaults s P).2 versionKey =
      some (Item.raw configVersion)
  · rw [load_stable hv hc1 hndP ⟨[], by rw [hkeys, List.append_nil]⟩ hP'nol]
  · rw [load_mismatch hv hc1]
    simp only
    have hreb : migrateRebuild (spreadObj defaultConfig P) =
        spreadObj defaultConfig P := by
      rw [migrateRebuild_eq_spread _ (fun p hp => by
        have hm : p.1 ∈ keysOf (spreadObj defaultConfig P) :=
          List.mem_map.2 ⟨p, hp, rfl⟩
        rw [hkeys] at hm
        exact (hasKey_iff_mem defaultConfig p.1).2 hm)]
      exact hsp
    rw [hreb, applyRewrites_id _ (fun ru hru => hP'nol ru hru)]

theorem load_absent_faults {f : Faults} {s : Store} (hr : f.readFault = false)
    (hc : lookupKey s storageKey = none) :
    load f s =
      if f.versionWriteFault then (defaultConfig, s)
      else (defaultConfig, setKey s versionKey (Item.raw configVersion)) := by
  simp [load, hr, hc]

theorem load_raw_faults {f : Faults} {s : Store} {str : String}
    (hr : f.readFault = false)
    (hc : lookupKey s storageKey = some (Item.raw str)) :
    load f s = (defaultConfig, s) := by
  simp [load, hr, hc]

theorem load_json_faults {f : Faults} {s : Store} {parsed : Obj}
    (hr : f.readFault = false)
    (hc : lookupKey s storageKey = some (Item.json parsed)) :
    load f s =
      (let st1 := applyRewrites
        (if lookupKey s versionKey = some (Item.raw configVersion) then
          (spreadObj defaultConfig parsed, false)
        else (migrateRebuild parsed, true))
       if st1.2 then
         (if f.versionWriteFault then (defaultConfig, (save f s st1.1).2)
          else (st1.1, setKey (save f s st1.1).2 versionKey
            (Item.raw configVersion)))
       else (st1.1, s)) := by
  by_cases hv : lookupKey s versionKey = some (Item.raw configVersion)
  · simp [load, hr, hc, hv]
  · simp [load, hr, hc, hv]

theorem load_result_hasKey (f : Faults) (s : Store) (k : String)
    (h : hasKey defaultConfig k = true) : hasKey (load f s).1 k = true := by
  by_cases hr : f.readFault = true
  · rw [load_readFault s hr]
    exact h
  · have hr' : f.readFault = false := by
      cases hh : f.readFault
      · rfl
      · exact absurd hh hr
    cases hcc : lookupKey s storageKey with
    | none =>
      rw [load_absent_faults hr' hcc]
      split
      · exact h
      · exact h
    | some it =>
      cases it with
      | raw str =>
        rw [load_raw_faults hr' hcc]
        exact h
      | corrupt =>
        rw [load_corrupt hr' hcc]
        exact h
      | json parsed =>
        rw [load_json_faults hr' hcc]
        simp only
        by_cases hv : lookupKey s versionKey = some (Item.raw configVersion)
        · rw [if_pos hv]
          have hst : hasKey
              (applyRewrites (spreadObj defaultConfig parsed, false)).1 k = true := by
            rw [applyRewrites_hasKey]
            show hasKey (spreadObj defaultConfig parsed) k = true
            rw [hasKey_spread, h]
            rfl
          split
          · split
            · exact h
            · exact hst
          · exact hst
        · rw [if_neg hv]
          have hst : hasKey
              (applyRewrites (migrateRebuild parsed, true)).1 k = true := by
            rw [applyRewrites_hasKey]
            show hasKey (migrateRebuild parsed) k = true
            rw [hasKey_eq_of_keysOf_eq (keysOf_migrateRebuild parsed) k]
            exact h
          split
          · split
            · exact h
            · exact hst
          · exact hst

/-! ### Lemmas about the image probe loop -/

theorem probeLoop_top {ex : String → Bool} :
    ∀ (k n : Nat), 1 ≤ n → n ≤ k → ex (imagePath n) = true →
      (∀ j, n < j → j ≤ k → ex (imagePath j) = false) →
      probeLoop ex k = some (imagePath n) := by
  intro k
  induction k with
  | zero =>
    intro n h1 h2 _ _
    omega
  | succ k ih =>
    intro n h1 h2 hx habove
    by_cases he : n = k + 1
    · subst he
      simp [probeLoop, hx]
    · have hn : n ≤ k := by omega
      have hfail : ex (imagePath (k + 1)) = false :=
        habove (k + 1) (by omega) (le_refl _)
      simp only [probeLoop, hfail, Bool.false_eq_true, ite_false]
      exact ih n h1 hn hx (fun j hj1 hj2 => habove j hj1 (by omega))

theorem probeLoop_none {ex : String → Bool} :
    ∀ k, (∀ j, 1 ≤ j → j ≤ k → ex (imagePath j) = false) →
      probeLoop ex k = none := by
  intro k
  induction k with
  | zero => intro _; rfl
  | succ k ih =>
    intro h
    have hfail : ex (imagePath (k + 1)) = false :=
      h (k + 1) (by omega) (le_refl _)
    simp only [probeLoop, hfail, Bool.false_eq_true, ite_false]
    exact ih (fun j hj1 hj2 => h j hj1 (by omega))

theorem probeLoop_mem {ex : String → Bool} :
    ∀ k p, probeLoop ex k = some p →
      ∃ n, 1 ≤ n ∧ n ≤ k ∧ p = imagePath n ∧ ex (imagePath n) = true := by
  intro k
  induction k with
  | zero =>
    intro p h
    simp [probeLoop] at h
  | succ k ih =>
    intro p h
    by_cases hx : ex (imagePath (k + 1)) = true
    · simp only [probeLoop, hx, ite_true, Option.some.injEq] at h
      exact ⟨k + 1, by omega, le_refl _, h.symm, hx⟩
    · have hx' : ex (imagePath (k + 1)) = false := by
        cases hh : ex (imagePath (k + 1))
        · rfl
        · exact absurd hh hx
      simp only [probeLoop, hx', Bool.false_eq_true, ite_false] at h
      obtain ⟨n, hn1, hn2, hn3, hn4⟩ := ih p h
      exact ⟨n, hn1, by omega, hn3, hn4⟩

/-! ### Claim theorems -/

/-- C1: for every persisted blob stored under a version token different
from the current version, where the blob contains a key `foo` not in the
Default Schema and a recognized key `theme` with value `"winter"`,
`load()` returns an object with no key `foo`, `theme` still `"winter"`,
and every Default Schema key; the store afterwards holds the migrated
result and the current version token, and a second immediate `load()`
changes nothing. -/
theorem c1_version_bump_migration (s : Store) (P : Obj)
    (hnd : NodupKeys P)
    (hv : lookupKey s versionKey ≠ some (Item.raw configVersion))
    (hc : lookupKey s storageKey = some (Item.json P))
    (hfoo : hasKey P "foo" = true)
    (hth : lookupKey P "theme" = some (JVal.str "winter")) :
    hasKey (load noFaults s).1 "foo" = false ∧
    lookupKey (load noFaults s).1 "theme" = some (JVal.str "winter") ∧
    (∀ k, hasKey defaultConfig k = true → hasKey (load noFaults s).1 k = true) ∧
    lookupKey (load noFaults s).2 storageKey =
      some (Item.json (load noFaults s).1) ∧
    lookupKey (load noFaults s).2 versionKey = some (Item.raw configVersion) ∧
    load noFaults (load noFaults s).2 =
      ((load noFaults s).1, (load noFaults s).2) := by
  have hkeysr : keysOf (applyRewrites (migrateRebuild P, true)).1 =
      keysOf defaultConfig := by
    rw [applyRewrites_keysOf]
    exact keysOf_migrateRebuild P
  have hndr : NodupKeys (applyRewrites (migrateRebuild P, true)).1 :=
    applyRewrites_nodup _ (nodup_migrateRebuild P)
  have hspr : spreadObj defaultConfig (applyRewrites (migrateRebuild P, true)).1 =
      (applyRewrites (migrateRebuild P, true)).1 :=
    spread_self _ _ [] hndr (by rw [hkeysr, List.append_nil])
  have e : load noFaults s =
      ((applyRewrites (migrateRebuild P, true)).1,
        setKey (setKey s storageKey
            (Item.json (applyRewrites (migrateRebuild P, true)).1)) versionKey
          (Item.raw configVersion)) := by
    rw [load_mismatch hv hc]
    simp only
    rw [hspr]
  refine ⟨?_, ?_, ?_, ?_, ?_, load_twice s⟩
  · rw [e]
    show hasKey (applyRewrites (migrateRebuild P, true)).1 "foo" = false
    rw [hasKey_eq_of_keysOf_eq hkeysr]
    decide
  · rw [e]
    show lookupKey (applyRewrites (migrateRebuild P, true)).1 "theme" =
      some (JVal.str "winter")
    rw [applyRewrites_lookup_ne _ (by decide) (by decide) (by decide)
      (by decide) (by decide)]
    show lookupKey (migrateRebuild P) "theme" = some (JVal.str "winter")
    rw [lookup_migrateRebuild hnd]
    have h1 : hasKey P "theme" = true := by
      simp [hasKey, hth]
    have h2 : hasKey defaultConfig "theme" = true := by decide
    rw [h1, h2]
    simpa using hth
  · intro k hk
    rw [e]
    show hasKey (applyRewrites (migrateRebuild P, true)).1 k = true
    rw [hasKey_eq_of_keysOf_eq hkeysr]
    exact hk
  · rw [e]
    show lookupKey (setKey (setKey s storageKey
        (Item.json (applyRewrites (migrateRebuild P, true)).1)) versionKey
      (Item.raw configVersion)) storageKey =
      some (Item.json (applyRewrites (migrateRebuild P, true)).1)
    rw [lookup_setKey_ne _ _ storage_ne_version]
    exact lookup_setKey_self _ _ _
  · rw [e]
    exact lookup_setKey_self _ _ _

/-- Witness for C1 at a concrete store: version token absent, blob
`\x7b foo: "1", theme: "winter" \x7d`. -/
theorem c1_version_bump_migration_witness :
    hasKey ([("foo", JVal.str "1"), ("theme", JVal.str "winter")] : Obj)
        "foo" = true ∧
    hasKey (load noFaults [(storageKey,
        Item.json [("foo", JVal.str "1"), ("theme", JVal.str "winter")])]).1
      "foo" = false ∧
    lookupKey (load noFaults [(storageKey,
        Item.json [("foo", JVal.str "1"), ("theme", JVal.str "winter")])]).1
      "theme" = some (JVal.str "winter") :=
  ⟨by decide,
   (c1_version_bump_migration
     [(storageKey, Item.json [("foo", JVal.str "1"), ("theme", JVal.str "winter")])]
     [("foo", JVal.str "1"), ("theme", JVal.str "winter")]
     (by unfold NodupKeys; decide) (by decide)
     (by decide) (by decide) (by decide)).1,
   (c1_version_bump_migration
     [(storageKey, Item.json [("foo", JVal.str "1"), ("theme", JVal.str "winter")])]
     [("foo", JVal.str "1"), ("theme", JVal.str "winter")]
     (by unfold NodupKeys; decide) (by decide)
     (by decide) (by decide) (by decide)).2.1⟩

/-- C2 counterexample: with a failing config write but a succeeding
version write, migrating a store that holds the legacy blob
`\x7b foo: "1" \x7d` under a missing version token leaves the version
token at the current version while the config record still holds the
un-migrated blob — the re-persist of `load()` is not atomic. -/
theorem c2_atomic_repersist_counterexample :
    lookupKey (load ⟨false, true, false, false, false, false⟩
        [(storageKey, Item.json [("foo", JVal.str "1")])]).2 versionKey =
      some (Item.raw configVersion) ∧
    lookupKey (load ⟨false, true, false, false, false, false⟩
        [(storageKey, Item.json [("foo", JVal.str "1")])]).2 storageKey =
      some (Item.json [("foo", JVal.str "1")]) := by
  decide

/-- C2 (amended): when `load()` migrates and no storage write fails, both
the config record and version token are re-persisted; if only the version
write fails, the version mismatch persists (so migration re-runs); but if
the config write fails while the version write succeeds, the store is
left with the current version token over the un-migrated blob — the two
writes are not atomic. -/
theorem c2_migration_repersist (s : Store) (P : Obj)
    (hv : lookupKey s versionKey ≠ some (Item.raw configVersion))
    (hc : lookupKey s storageKey = some (Item.json P)) :
    (lookupKey (load noFaults s).2 storageKey =
        some (Item.json (spreadObj defaultConfig (load noFaults s).1)) ∧
      lookupKey (load noFaults s).2 versionKey = some (Item.raw configVersion)) ∧
    (∀ f : Faults, f.readFault = false → f.configWriteFault = false →
      f.versionWriteFault = true →
      lookupKey (load f s).2 versionKey = lookupKey s versionKey) ∧
    (∀ f : Faults, f.readFault = false → f.configWriteFault = true →
      f.versionWriteFault = false →
      lookupKey (load f s).2 versionKey = some (Item.raw configVersion) ∧
      lookupKey (load f s).2 storageKey = some (Item.json P)) := by
  refine ⟨?_, ?_, ?_⟩
  · rw [load_mismatch hv hc]
    simp only
    constructor
    · rw [lookup_setKey_ne _ _ storage_ne_version]
      exact lookup_setKey_self _ _ _
    · exact lookup_setKey_self _ _ _
  · intro f h1 h2 h3
    rw [load_mismatch_faults h1 hv hc]
    simp only [h3, ite_true, save, h2, Bool.false_eq_true, ite_false]
    exact lookup_setKey_ne _ _ (Ne.symm storage_ne_version)
  · intro f h1 h2 h3
    rw [load_mismatch_faults h1 hv hc]
    simp only [h3, Bool.false_eq_true, ite_false, save, h2, ite_true]
    constructor
    · exact lookup_setKey_self _ _ _
    · rw [lookup_setKey_ne _ _ storage_ne_version]
      exact hc

/-- Witness for the amended C2 at a concrete store. -/
theorem c2_migration_repersist_witness :
    lookupKey (load noFaults
        [(storageKey, Item.json [("foo", JVal.str "1")])]).2 versionKey =
      some (Item.raw configVersion) ∧
    lookupKey (load ⟨false, false, true, false, false, false⟩
        [(storageKey, Item.json [("foo", JVal.str "1")])]).2 versionKey =
      lookupKey [(storageKey, Item.json [("foo", JVal.str "1")])] versionKey :=
  ⟨(c2_migration_repersist
     [(storageKey, Item.json [("foo", JVal.str "1")])]
     [("foo", JVal.str "1")] (by decide) (by decide)).1.2,
   (c2_migration_repersist
     [(storageKey, Item.json [("foo", JVal.str "1")])]
     [("foo", JVal.str "1")] (by decide) (by decide)).2.1
     ⟨false, false, true, false, false, false⟩ rfl rfl rfl⟩

/-- C3 counterexample: the valid partial config
`\x7b location: "Bel Air, Maryland (serving surrounding communities)" \x7d`
is saved, but `load()` afterwards does not return the saved value for
`location`: the legacy-value rewrite replaces it. -/
theorem c3_roundtrip_counterexample :
    lookupKey (load noFaults (save noFaults []
        [("location", JVal.str belAirOld)]).2).1 "location" ≠
      some (JVal.str belAirOld) ∧
    lookupKey (load noFaults (save noFaults []
        [("location", JVal.str belAirOld)]).2).1 "location" =
      some (JVal.str "Harford County, Maryland") := by
  decide

/-- C3 (amended): for all valid partial configs `P` — keys drawn from the
Default Schema — none of whose values equals a legacy-rewrite old literal
for its field, `load()` after `save(P)` returns an object containing every
Default Schema key, with keys present in `P` at `P`'s values and keys
absent from `P` at the default values; in particular saving the empty
object reads back every default unchanged. -/
theorem c3_save_load_roundtrip (s : Store) (P : Obj) (hnd : NodupKeys P)
    (hvalid : ∀ k, hasKey P k = true → hasKey defaultConfig k = true)
    (hnol : ∀ ru ∈ legacyRules, lookupKey P ru.1 ≠ some (JVal.str ru.2.1)) :
    (∀ k, hasKey defaultConfig k = true →
      hasKey (load noFaults (save noFaults s P).2).1 k = true) ∧
    (∀ k v, lookupKey P k = some v →
      lookupKey (load noFaults (save noFaults s P).2).1 k = some v) ∧
    (∀ k, hasKey defaultConfig k = true → hasKey P k = false →
      lookupKey (load noFaults (save noFaults s P).2).1 k =
        lookupKey defaultConfig k) := by
  have e := load_after_save s P hnd hvalid hnol
  refine ⟨?_, ?_, ?_⟩
  · intro k hk
    rw [e, hasKey_spread, hk]
    rfl
  · intro k v hv
    rw [e, lookup_spread _ _ hnd]
    have hk : hasKey P k = true := by
      simp [hasKey, hv]
    rw [hk]
    simpa using hv
  · intro k hk hpk
    rw [e, lookup_spread _ _ hnd, hpk]
    simp

/-- Witness for the amended C3 with `P = \x7b theme: "winter" \x7d`. -/
theorem c3_save_load_roundtrip_witness :
    NodupKeys ([("theme", JVal.str "winter")] : Obj) ∧
    lookupKey (load noFaults (save noFaults []
        [("theme", JVal.str "winter")]).2).1 "theme" =
      some (JVal.str "winter") ∧
    lookupKey (load noFaults (save noFaults []
        [("theme", JVal.str "winter")]).2).1 "location" =
      lookupKey defaultConfig "location" :=
  ⟨by unfold NodupKeys; decide,
   (c3_save_load_roundtrip [] [("theme", JVal.str "winter")]
      (by unfold NodupKeys; decide)
      (by
        intro k hk
        have hkth : "theme" = k := by
          by_contra hne
          simp [hasKey, lookupKey, hne] at hk
        subst hkth
        decide)
      (by decide)).2.1 "theme" (JVal.str "winter") (by decide),
   (c3_save_load_roundtrip [] [("theme", JVal.str "winter")]
      (by unfold NodupKeys; decide)
      (by
        intro k hk
        have hkth : "theme" = k := by
          by_contra hne
          simp [hasKey, lookupKey, hne] at hk
        subst hkth
        decide)
      (by decide)).2.2 "location" (by decide) (by decide)⟩

/-- C4: `load()` never throws; a storage-read or parse failure is caught
and a fresh copy of the defaults is returned, and every call — whatever
the store contents and whatever faults occur — returns an object carrying
every Default Schema key. -/
theorem c4_load_total (f : Faults) (s : Store) :
    (∀ k, hasKey defaultConfig k = true → hasKey (load f s).1 k = true) ∧
    (f.readFault = true → load f s = (defaultConfig, s)) ∧
    (f.readFault = false → lookupKey s storageKey = some Item.corrupt →
      load f s = (defaultConfig, s)) :=
  ⟨fun k hk => load_result_hasKey f s k hk,
   fun hr => load_readFault s hr,
   fun hr hc => load_corrupt hr hc⟩

/-- Witness for C4: a read fault and a corrupt blob both fall back to the
defaults, and a normal load carries the schema keys. -/
theorem c4_load_total_witness :
    load ⟨true, false, false, false, false, false⟩ [] = (defaultConfig, []) ∧
    load noFaults [(storageKey, Item.corrupt)] =
      (defaultConfig, [(storageKey, Item.corrupt)]) ∧
    hasKey (load noFaults []).1 "theme" = true :=
  ⟨(c4_load_total ⟨true, false, false, false, false, false⟩ []).2.1 rfl,
   (c4_load_total noFaults [(storageKey, Item.corrupt)]).2.2 rfl (by decide),
   (c4_load_total noFaults []).1 "theme" (by decide)⟩

/-- C5: for every persisted blob whose `location` field holds the legacy
Bel Air literal, `load()` returns `location = "Harford County, Maryland"`
and persists the corrected value: a direct read of the config record
after `load()` shows the new value. -/
theorem c5_legacy_location_rewrite (s : Store) (P : Obj)
    (hnd : NodupKeys P)
    (hc : lookupKey s storageKey = some (Item.json P))
    (hloc : lookupKey P "location" = some (JVal.str belAirOld)) :
    lookupKey (load noFaults s).1 "location" =
      some (JVal.str "Harford County, Maryland") ∧
    (∃ c, lookupKey (load noFaults s).2 storageKey = some (Item.json c) ∧
      lookupKey c "location" = some (JVal.str "Harford County, Maryland")) := by
  have hPk : hasKey P "location" = true := by
    simp [hasKey, hloc]
  by_cases hv : lookupKey s versionKey = some (Item.raw configVersion)
  · have hm : lookupKey (spreadObj defaultConfig P) "location" =
        some (JVal.str belAirOld) := by
      rw [lookup_spread _ _ hnd, hPk]
      simpa using hloc
    obtain ⟨hlook, hflag⟩ :=
      applyRewrites_location (spreadObj defaultConfig P, false) hm
    have e : load noFaults s =
        ((applyRewrites (spreadObj defaultConfig P, false)).1,
          setKey (setKey s storageKey (Item.json (spreadObj defaultConfig
            (applyRewrites (spreadObj defaultConfig P, false)).1))) versionKey
            (Item.raw configVersion)) := by
      rw [load_match_version hv hc]
      simp only [hflag, ite_true]
    have hndr : NodupKeys (applyRewrites (spreadObj defaultConfig P, false)).1 :=
      applyRewrites_nodup _ (nodup_spread P defaultConfig_nodup)
    have hrk : hasKey (applyRewrites (spreadObj defaultConfig P, false)).1
        "location" = true := by
      simp [hasKey, hlook]
    refine ⟨by rw [e]; exact hlook, ?_⟩
    refine ⟨spreadObj defaultConfig
      (applyRewrites (spreadObj defaultConfig P, false)).1, ?_, ?_⟩
    · rw [e]
      show lookupKey (setKey (setKey s storageKey _) versionKey _)
        storageKey = _
      rw [lookup_setKey_ne _ _ storage_ne_version]
      exact lookup_setKey_self _ _ _
    · rw [lookup_spread _ _ hndr, hrk]
      exact hlook
  · have hm : lookupKey (migrateRebuild P) "location" =
        some (JVal.str belAirOld) := by
      rw [lookup_migrateRebuild hnd, hPk]
      have hd : hasKey defaultConfig "location" = true := by decide
      rw [hd]
      simpa using hloc
    obtain ⟨hlook, _⟩ := applyRewrites_location (migrateRebuild P, true) hm
    have e : load noFaults s =
        ((applyRewrites (migrateRebuild P, true)).1,
          setKey (setKey s storageKey (Item.json (spreadObj defaultConfig
            (applyRewrites (migrateRebuild P, true)).1))) versionKey
            (Item.raw configVersion)) := by
      rw [load_mismatch hv hc]
    have hndr : NodupKeys (applyRewrites (migrateRebuild P, true)).1 :=
      applyRewrites_nodup _ (nodup_migrateRebuild P)
    have hrk : hasKey (applyRewrites (migrateRebuild P, true)).1
        "location" = true := by
      simp [hasKey, hlook]
    refine ⟨by rw [e]; exact hlook, ?_⟩
    refine ⟨spreadObj defaultConfig
      (applyRewrites (migrateRebuild P, true)).1, ?_, ?_⟩
    · rw [e]
      show lookupKey (setKey (setKey s storageKey _) versionKey _)
        storageKey = _
      rw [lookup_setKey_ne _ _ storage_ne_version]
      exact lookup_setKey_self _ _ _
    · rw [lookup_spread _ _ hndr, hrk]
      exact hlook

/-- Witness for C5 at a concrete store holding the Bel Air literal. -/
theorem c5_legacy_location_rewrite_witness :
    lookupKey ([("location", JVal.str belAirOld)] : Obj) "location" =
      some (JVal.str belAirOld) ∧
    lookupKey (load noFaults
        [(storageKey, Item.json [("location", JVal.str belAirOld)])]).1
      "location" = some (JVal.str "Harford County, Maryland") :=
  ⟨by decide,
   (c5_legacy_location_rewrite
     [(storageKey, Item.json [("location", JVal.str belAirOld)])]
     [("location", JVal.str belAirOld)]
     (by unfold NodupKeys; decide) (by decide)
     (by decide)).1⟩

/-- C6: under normal operation, calling `load()` twice in succession with
no intervening `save()` returns identical configurations and the second
call leaves the store exactly as the first left it (nothing further is
written); and each legacy-value rewrite rule is idempotent — applying it
again to its own output is a no-op. -/
theorem c6_load_idempotent :
    (∀ s : Store, load noFaults (load noFaults s).2 =
      ((load noFaults s).1, (load noFaults s).2)) ∧
    (∀ ru ∈ legacyRules, ∀ st : Obj × Bool,
      rewriteStep (rewriteStep st ru) ru = rewriteStep st ru) := by
  refine ⟨load_twice, ?_⟩
  intro ru hru st
  simp only [legacyRules, List.mem_cons, List.not_mem_nil, or_false] at hru
  rcases hru with rfl | rfl | rfl | rfl | rfl
  · exact rewriteStep_skip (rewriteStep_not_old st _ (by decide))
  · exact rewriteStep_skip (rewriteStep_not_old st _ (by decide))
  · exact rewriteStep_skip (rewriteStep_not_old st _ (by decide))
  · exact rewriteStep_skip (rewriteStep_not_old st _ (by decide))
  · exact rewriteStep_skip (rewriteStep_not_old st _ (by decide))

/-- Witness for C6: a migrating store, loaded twice, and the location
rule applied twice to data holding the legacy literal. -/
theorem c6_load_idempotent_witness :
    load noFaults
        (load noFaults [(storageKey, Item.json [("foo", JVal.str "1")])]).2 =
      ((load noFaults [(storageKey, Item.json [("foo", JVal.str "1")])]).1,
        (load noFaults [(storageKey, Item.json [("foo", JVal.str "1")])]).2) ∧
    rewriteStep (rewriteStep ([("location", JVal.str belAirOld)], false)
        ("location", belAirOld, "Harford County, Maryland"))
      ("location", belAirOld, "Harford County, Maryland") =
      rewriteStep ([("location", JVal.str belAirOld)], false)
        ("location", belAirOld, "Harford County, Maryland") :=
  ⟨c6_load_idempotent.1 [(storageKey, Item.json [("foo", JVal.str "1")])],
   c6_load_idempotent.2 ("location", belAirOld, "Harford County, Maryland")
     (by decide) ([("location", JVal.str belAirOld)], false)⟩

/-- C7: with no usable cache entry, `findLatestPfpImage()` probes
`assets/images/pfp<N>.jpg` for `N` from 20 down to 1, returns the first
(highest) hit and caches it; when no candidate resolves it returns and
caches the fixed placeholder path; the result is always one of the
numbered candidate paths or the placeholder. -/
theorem c7_probe_descending (ex : String → Bool) (now : Nat) (s : Store)
    (hcache : cacheProbe noFaults ex now s = none) :
    (∀ n, 1 ≤ n → n ≤ 20 → ex (imagePath n) = true →
      (∀ j, n < j → j ≤ 20 → ex (imagePath j) = false) →
      findLatestPfpImage noFaults ex now s =
        (imagePath n, setKey (setKey s cacheKey (Item.raw (imagePath n)))
          cacheTimeKey (Item.raw (toString now)))) ∧
    ((∀ j, 1 ≤ j → j ≤ 20 → ex (imagePath j) = false) →
      findLatestPfpImage noFaults ex now s =
        (fallbackPath, setKey (setKey s cacheKey (Item.raw fallbackPath))
          cacheTimeKey (Item.raw (toString now)))) ∧
    ((∃ n, 1 ≤ n ∧ n ≤ 20 ∧
        (findLatestPfpImage noFaults ex now s).1 = imagePath n) ∨
      (findLatestPfpImage noFaults ex now s).1 = fallbackPath) := by
  have hf : findLatestPfpImage noFaults ex now s =
      freshResolve noFaults ex now s := by
    unfold findLatestPfpImage
    rw [hcache]
  refine ⟨?_, ?_, ?_⟩
  · intro n h1 h2 hx hab
    have hp : probeLoop ex maxAttempts = some (imagePath n) :=
      probeLoop_top 20 n h1 h2 hx hab
    rw [hf]
    unfold freshResolve
    rw [hp]
    rfl
  · intro hall
    have hp : probeLoop ex maxAttempts = none := probeLoop_none 20 hall
    rw [hf]
    unfold freshResolve
    rw [hp]
    rfl
  · rw [hf]
    unfold freshResolve
    cases hp : probeLoop ex maxAttempts with
    | some p =>
      obtain ⟨n, hn1, hn2, rfl, _⟩ := probeLoop_mem maxAttempts p hp
      exact Or.inl ⟨n, hn1, hn2, rfl⟩
    | none => exact Or.inr rfl

/-- Witness for C7: only `pfp1.jpg`..`pfp3.jpg` resolve, so the probe
returns the index-3 path and caches it. -/
theorem c7_probe_descending_witness :
    (fun p => p == imagePath 1 || p == imagePath 2 || p == imagePath 3)
        (imagePath 3) = true ∧
    findLatestPfpImage noFaults
        (fun p => p == imagePath 1 || p == imagePath 2 || p == imagePath 3)
        0 [] =
      (imagePath 3, setKey (setKey [] cacheKey (Item.raw (imagePath 3)))
        cacheTimeKey (Item.raw (toString 0))) :=
  ⟨by decide,
   (c7_probe_descending
     (fun p => p == imagePath 1 || p == imagePath 2 || p == imagePath 3)
     0 [] rfl).1 3 (by decide) (by decide) (by decide)
     (by
       intro j h1 h2
       interval_cases j <;> decide)⟩

/-- C8: a cached image path is returned (with no store write) only when
its timestamp is less than 24 hours old and a re-probe of that exact path
succeeds; an entry aged 24 hours or more, or one failing re-validation,
makes the cache miss so the full descending probe runs instead.  The fast
path holds for every probe oracle accepting the cached path, so a fresh
cache entry is re-validated alone without probing the other candidates. -/
theorem c8_cache_validation (ex : String → Bool) (now : Nat) (s : Store)
    (p ts : String) (tn : Nat)
    (hp : lookupKey s cacheKey = some (Item.raw p)) (hpne : ¬(p = ""))
    (ht : lookupKey s cacheTimeKey = some (Item.raw ts))
    (htn : parseNat ts = some tn) :
    (now - tn < cacheDuration → ex p = true →
      findLatestPfpImage noFaults ex now s = (p, s)) ∧
    (cacheDuration ≤ now - tn → cacheProbe noFaults ex now s = none) ∧
    (ex p = false → cacheProbe noFaults ex now s = none) ∧
    (cacheProbe noFaults ex now s = none →
      findLatestPfpImage noFaults ex now s = freshResolve noFaults ex now s) := by
  have hbase : cacheProbe noFaults ex now s =
      (if now - tn < cacheDuration then (if ex p then some p else none)
       else none) := by
    unfold cacheProbe
    simp only [noFaults, Bool.false_eq_true, ite_false, hp, ht, htn,
      if_neg hpne]
  refine ⟨?_, ?_, ?_, ?_⟩
  · intro h1 h2
    have hcp : cacheProbe noFaults ex now s = some p := by
      rw [hbase, if_pos h1, h2]
      simp
    unfold findLatestPfpImage
    rw [hcp]
  · intro h
    rw [hbase, if_neg (Nat.not_lt.2 h)]
  · intro h
    rw [hbase]
    split
    · rw [h]
      simp
    · rfl
  · intro h
    unfold findLatestPfpImage
    rw [h]

/-- Witness for C8: a 1-second-old cache entry for `pfp5.jpg` whose
re-probe succeeds is returned untouched. -/
theorem c8_cache_validation_witness :
    (2000 - 1000 < cacheDuration) ∧
    findLatestPfpImage noFaults (fun p => p == "assets/images/pfp5.jpg") 2000
        [(cacheKey, Item.raw "assets/images/pfp5.jpg"),
         (cacheTimeKey, Item.raw "1000")] =
      ("assets/images/pfp5.jpg",
        [(cacheKey, Item.raw "assets/images/pfp5.jpg"),
         (cacheTimeKey, Item.raw "1000")]) :=
  ⟨by decide,
   (c8_cache_validation (fun p => p == "assets/images/pfp5.jpg") 2000
     [(cacheKey, Item.raw "assets/images/pfp5.jpg"),
      (cacheTimeKey, Item.raw "1000")]
     "assets/images/pfp5.jpg" "1000" 1000
     (by decide) (by decide) (by decide) (by decide)).1
     (by decide) (by decide)⟩

/-- C9: when the stored version token equals the current version, a key
absent from the Default Schema but present in the persisted blob survives
`load()` with its stored value, and `save()` persists verbatim any key of
its argument outside the Default Schema. -/
theorem c9_unknown_keys_preserved (s : Store) (P : Obj) (k : String) (v : JVal)
    (hnd : NodupKeys P)
    (hv : lookupKey s versionKey = some (Item.raw configVersion))
    (hc : lookupKey s storageKey = some (Item.json P))
    (hk : hasKey defaultConfig k = false)
    (hkv : lookupKey P k = some v) :
    lookupKey (load noFaults s).1 k = some v ∧
    (∀ (s₂ : Store) (c : Obj) (k₂ : String) (v₂ : JVal), NodupKeys c →
      hasKey defaultConfig k₂ = false → lookupKey c k₂ = some v₂ →
      lookupKey (save noFaults s₂ c).2 storageKey =
        some (Item.json (spreadObj defaultConfig c)) ∧
      lookupKey (spreadObj defaultConfig c) k₂ = some v₂) := by
  constructor
  · have hne : ∀ fld : String, hasKey defaultConfig fld = true → k ≠ fld := by
      intro fld hf he
      subst he
      rw [hf] at hk
      simp at hk
    have hm : lookupKey (spreadObj defaultConfig P) k = some v := by
      rw [lookup_spread _ _ hnd]
      have hpk : hasKey P k = true := by
        simp [hasKey, hkv]
      rw [hpk]
      simpa using hkv
    have hlook : lookupKey
        (applyRewrites (spreadObj defaultConfig P, false)).1 k = some v := by
      rw [applyRewrites_lookup_ne _ (hne "location" (by decide))
        (hne "heroName" (by decide)) (hne "businessName" (by decide))
        (hne "contactEmail" (by decide)) (hne "profileImageUrl" (by decide))]
      exact hm
    rw [load_match_version hv hc]
    simp only
    split
    · exact hlook
    · exact hlook
  · intro s₂ c k₂ v₂ hndc hk₂ hkv₂
    refine ⟨lookup_setKey_self _ _ _, ?_⟩
    rw [lookup_spread _ _ hndc]
    have hck : hasKey c k₂ = true := by
      simp [hasKey, hkv₂]
    rw [hck]
    simpa using hkv₂

/-- Witness for C9: the unknown key `zzz` survives a version-matched load
and a save. -/
theorem c9_unknown_keys_preserved_witness :
    lookupKey (load noFaults [(versionKey, Item.raw "2.0"),
        (storageKey, Item.json [("zzz", JVal.num 3)])]).1 "zzz" =
      some (JVal.num 3) ∧
    lookupKey (spreadObj defaultConfig [("zzz", JVal.num 3)]) "zzz" =
      some (JVal.num 3) :=
  ⟨(c9_unknown_keys_preserved
     [(versionKey, Item.raw "2.0"), (storageKey, Item.json [("zzz", JVal.num 3)])]
     [("zzz", JVal.num 3)] "zzz" (JVal.num 3)
     (by unfold NodupKeys; decide) (by decide) (by decide) (by decide)
     (by decide)).1,
   ((c9_unknown_keys_preserved
     [(versionKey, Item.raw "2.0"), (storageKey, Item.json [("zzz", JVal.num 3)])]
     [("zzz", JVal.num 3)] "zzz" (JVal.num 3)
     (by unfold NodupKeys; decide) (by decide) (by decide) (by decide)
     (by decide)).2 [] [("zzz", JVal.num 3)] "zzz" (JVal.num 3)
     (by unfold NodupKeys; decide) (by decide) (by decide)).2⟩

/-- C10: `reset()` removes only the config record; the version-token and
both image-cache records are untouched by every call (and on a remove
fault nothing at all changes). -/
theorem c10_reset_config_only (f : Faults) (s : Store) :
    lookupKey (reset f s).2 versionKey = lookupKey s versionKey ∧
    lookupKey (reset f s).2 cacheKey = lookupKey s cacheKey ∧
    lookupKey (reset f s).2 cacheTimeKey = lookupKey s cacheTimeKey ∧
    (f.removeFault = false → lookupKey (reset f s).2 storageKey = none) ∧
    (f.removeFault = true → (reset f s).2 = s) := by
  by_cases hrf : f.removeFault = true
  · have e : (reset f s).2 = s := by simp [reset, hrf]
    rw [e]
    exact ⟨rfl, rfl, rfl,
      fun h => by rw [h] at hrf; exact Bool.noConfusion hrf,
      fun _ => rfl⟩
  · have hrf' : f.removeFault = false := by
      cases hh : f.removeFault
      · rfl
      · exact absurd hh hrf
    have e : (reset f s).2 = removeKey s storageKey := by simp [reset, hrf']
    rw [e]
    exact ⟨lookup_removeKey_ne s (by decide), lookup_removeKey_ne s (by decide),
      lookup_removeKey_ne s (by decide),
      fun _ => lookup_removeKey_self s storageKey,
      fun h => absurd h hrf⟩

/-- Witness for C10 at a store holding all four records. -/
theorem c10_reset_config_only_witness :
    lookupKey (reset noFaults [(storageKey, Item.json []),
        (versionKey, Item.raw "2.0"), (cacheKey, Item.raw "x"),
        (cacheTimeKey, Item.raw "1")]).2 storageKey = none ∧
    lookupKey (reset noFaults [(storageKey, Item.json []),
        (versionKey, Item.raw "2.0"), (cacheKey, Item.raw "x"),
        (cacheTimeKey, Item.raw "1")]).2 versionKey =
      lookupKey [(storageKey, Item.json []), (versionKey, Item.raw "2.0"),
        (cacheKey, Item.raw "x"), (cacheTimeKey, Item.raw "1")] versionKey :=
  ⟨(c10_reset_config_only noFaults [(storageKey, Item.json []),
      (versionKey, Item.raw "2.0"), (cacheKey, Item.raw "x"),
      (cacheTimeKey, Item.raw "1")]).2.2.2.1 rfl,
   (c10_reset_config_only noFaults [(storageKey, Item.json []),
      (versionKey, Item.raw "2.0"), (cacheKey, Item.raw "x"),
      (cacheTimeKey, Item.raw "1")]).1⟩

end SelfProfile
